import Mathlib

/-!
Verification of the opendbc metadata compilation scripts.

This file gives a shallow embedding of the metadata reconciliation engine:
the part-composition resolver (`get_all_parts_for_model`,
`_format_detailed_parts`, `format_items_to_dicts`), the flag-driven footnote
engine (`FlagBasedProcessor`), the attribute normalizer (sentinel conversion
and the center-to-front ratio guard), the record validator and the
`generate_json` pipeline of `create_cars_json.py`, and the `Footnote`
column validation of the metadata framework.  Python floats that matter
only as "finite / +inf / -inf" are modelled by `PFloat`; machine reals are
modelled by rationals; Python dicts are modelled by position-preserving
association lists.
-/

namespace OpendbcMeta

/-- Model of a Python float as used by the extractors: a finite value
(modelled as a rational) or one of the two infinity sentinels. -/
inductive PFloat where
  | finite (q : ℚ)
  | inf
  | negInf
deriving DecidableEq

/-- Model of `create_cars_json.MetadataExtractor._extract_vehicle_configs`
lines 284-286 (and `get_metadata.extract_metadata` lines 73-75): a raw
`maxLateralAccel` equal to positive or negative infinity is replaced by
`None`; everything else (including an absent value) passes through. -/
def normMaxLateralAccel (v : Option PFloat) : Option PFloat :=
  match v with
  | some PFloat.inf => none
  | some PFloat.negInf => none
  | x => x

/-- Model of the Python `str.lower()` call used by the extractors:
per-character lowercasing (the documentation names involved are ASCII). -/
def pyLower (s : String) : String :=
  ⟨s.data.map Char.toLower⟩

/-- Model of `create_cars_json.MetadataExtractor._extract_basic_info`
lines 140-142 (and `get_metadata.extract_metadata` lines 63-66): the
minimum steer speed is replaced by `None` exactly when the documentation
name lower-cases to "comma body" and the raw value is `-inf`. -/
def minSteerSpeedNorm (name : String) (v : Option PFloat) : Option PFloat :=
  if pyLower name = "comma body" ∧ v = some PFloat.negInf then none else v

/-- Model of the `CarParams` fields consumed by the extractors.  Fields are
optional: `hasattr` failure / a missing value is `none`. -/
structure CarParamsM where
  centerToFront : Option ℚ
  wheelbase : Option ℚ
  mass : Option ℚ
  maxLateralAccel : Option PFloat
deriving DecidableEq

/-- Model of the center-to-front ratio computation of
`create_cars_json.MetadataExtractor._extract_vehicle_configs` lines 276-281
(and `get_metadata.extract_metadata` lines 77-82): the ratio defaults to
0.5 and is only computed as `centerToFront / wheelbase` when `CP` is
present, both attributes are present, and the wheelbase is positive. -/
def centerToFrontRatio (cp : Option CarParamsM) : ℚ :=
  match cp with
  | none => 1 / 2
  | some c =>
    match c.centerToFront, c.wheelbase with
    | some ctf, some wb => if 0 < wb then ctf / wb else 1 / 2
    | _, _ => 1 / 2

/-- Claim C3, counterexample.  The general sentinel law does not hold for
the minimum-steer-speed field: for a record whose name is not "comma body",
a raw value of negative infinity is NOT normalized to null, and even for
"comma body" a positive infinity is NOT normalized to null. -/
theorem c3_minSteerSpeed_not_normalized :
    minSteerSpeedNorm "Honda Civic 2016-18" (some PFloat.negInf)
        = some PFloat.negInf
    ∧ minSteerSpeedNorm "comma body" (some PFloat.inf) = some PFloat.inf := by
  constructor <;> rfl

/-- Claim C3, amended.  The sentinel law (positive or negative infinity
normalizes to null, finite values pass through) holds for the
maximum-lateral-acceleration field; the minimum-steer-speed field is not
subject to the general rule: it passes through unchanged (including
infinities) except that a record named "comma body" (case-insensitively)
maps a negative-infinity value to null. -/
theorem c3_sentinel_law_amended :
    (normMaxLateralAccel (some PFloat.inf) = none
      ∧ normMaxLateralAccel (some PFloat.negInf) = none
      ∧ ∀ q : ℚ, normMaxLateralAccel (some (PFloat.finite q)) =
          some (PFloat.finite q))
    ∧ (∀ name : String, pyLower name ≠ "comma body" →
        ∀ v, minSteerSpeedNorm name v = v)
    ∧ (∀ name : String, minSteerSpeedNorm name (some PFloat.inf) =
        some PFloat.inf) := by
  refine ⟨⟨rfl, rfl, fun q => rfl⟩, ?_, ?_⟩
  · intro name h v
    simp [minSteerSpeedNorm, h]
  · intro name
    simp [minSteerSpeedNorm]

/-- Witness for the amended claim C3 at concrete inputs. -/
theorem c3_sentinel_law_amended_witness :
    (pyLower "Toyota Corolla" ≠ "comma body"
      ∧ minSteerSpeedNorm "Toyota Corolla" (some PFloat.negInf)
          = some PFloat.negInf) :=
  ⟨by decide, c3_sentinel_law_amended.2.1 "Toyota Corolla" (by decide)
      (some PFloat.negInf)⟩

/-- Claim C5: the center-to-front ratio is never obtained by dividing by
zero: when the wheelbase is present and positive the ratio is
`centerToFront / wheelbase`, and when the parameters are absent or the
wheelbase is absent, zero or negative the ratio is the 0.5 default. -/
theorem c5_ratio_guard (ctf wb : ℚ) (c : CarParamsM) :
    (0 < wb →
      centerToFrontRatio (some ⟨some ctf, some wb, c.mass, c.maxLateralAccel⟩)
        = ctf / wb)
    ∧ ((∀ w, c.wheelbase = some w → w ≤ 0) →
        centerToFrontRatio (some c) = 1 / 2)
    ∧ centerToFrontRatio none = 1 / 2 := by
  refine ⟨fun h => by simp [centerToFrontRatio, h], fun h => ?_, rfl⟩
  rcases c with ⟨octf, owb, om, oml⟩
  cases octf with
  | none => rfl
  | some x =>
    cases owb with
    | none => rfl
    | some w =>
      have hw : w ≤ 0 := h w rfl
      simp [centerToFrontRatio, not_lt.mpr hw]

/-- Witness for claim C5: a positive wheelbase divides, a zero wheelbase
takes the 0.5 default. -/
theorem c5_ratio_guard_witness :
    ((0 : ℚ) < 4
      ∧ centerToFrontRatio (some ⟨some (2 : ℚ), some (4 : ℚ), none, none⟩)
          = 2 / 4)
    ∧ ((∀ w, (some (0 : ℚ)) = some w → w ≤ 0)
      ∧ centerToFrontRatio (some ⟨some (2 : ℚ), some (0 : ℚ), none, none⟩)
          = 1 / 2) :=
  ⟨⟨by norm_num, (c5_ratio_guard 2 4 ⟨some 2, some 4, none, none⟩).1
      (by norm_num)⟩,
   ⟨by intro w hw; cases hw; rfl,
    (c5_ratio_guard 2 0 ⟨some 2, some 0, none, none⟩).2.1
      (by intro w hw; cases hw; rfl)⟩⟩

/-- Claim C6: the named-model special case: a record whose name
lower-cases to "comma body" maps a raw minimum-steer-speed of negative
infinity to null; for any other name the rule leaves the value unchanged. -/
theorem c6_comma_body_special_case (name : String) (v : Option PFloat) :
    (pyLower name = "comma body" →
      minSteerSpeedNorm name (some PFloat.negInf) = none)
    ∧ (pyLower name ≠ "comma body" → minSteerSpeedNorm name v = v) := by
  constructor
  · intro h
    simp [minSteerSpeedNorm, h]
  · intro h
    simp [minSteerSpeedNorm, h]

/-- Witness for claim C6 at concrete inputs: "Comma Body" (case-insensitive
match) normalizes -inf to null; "Acme Car" is untouched. -/
theorem c6_comma_body_special_case_witness :
    (pyLower "Comma Body" = "comma body"
      ∧ minSteerSpeedNorm "Comma Body" (some PFloat.negInf) = none)
    ∧ (pyLower "Acme Car" ≠ "comma body"
      ∧ minSteerSpeedNorm "Acme Car" (some PFloat.negInf)
          = some PFloat.negInf) :=
  ⟨⟨by decide, (c6_comma_body_special_case "Comma Body"
      (some PFloat.negInf)).1 (by decide)⟩,
   ⟨by decide, (c6_comma_body_special_case "Acme Car"
      (some PFloat.negInf)).2 (by decide)⟩⟩

section Dict

variable {κ ν : Type} [DecidableEq κ]

/-- Model of a Python dict update `m[k] = v`: if the key is present its
binding is replaced in place (iteration order keeps its position),
otherwise the binding is appended at the end (insertion order). -/
def dinsert (m : List (κ × ν)) (k : κ) (v : ν) : List (κ × ν) :=
  match m with
  | [] => [(k, v)]
  | (ka, va) :: rest =>
    if ka = k then (ka, v) :: rest else (ka, va) :: dinsert rest k v

/-- Model of a Python dict lookup `m.get(k)`. -/
def dlookup (m : List (κ × ν)) (k : κ) : Option ν :=
  match m with
  | [] => none
  | (ka, va) :: rest => if ka = k then some va else dlookup rest k

/-- The keys of a dict, in iteration order. -/
def dkeys (m : List (κ × ν)) : List κ :=
  m.map Prod.fst

@[simp] theorem dkeys_nil : dkeys ([] : List (κ × ν)) = [] := rfl

@[simp] theorem dkeys_cons (k : κ) (v : ν) (m : List (κ × ν)) :
    dkeys ((k, v) :: m) = k :: dkeys m := rfl

theorem dinsert_cons_self (k : κ) (v vb : ν) (m : List (κ × ν)) :
    dinsert ((k, vb) :: m) k v = (k, v) :: m := by
  simp [dinsert]

theorem dinsert_cons_ne (k kb : κ) (v vb : ν) (m : List (κ × ν))
    (h : kb ≠ k) : dinsert ((kb, vb) :: m) k v = (kb, vb) :: dinsert m k v := by
  simp [dinsert, h]

theorem dlookup_dinsert_self (m : List (κ × ν)) (k : κ) (v : ν) :
    dlookup (dinsert m k v) k = some v := by
  induction m with
  | nil => simp [dinsert, dlookup]
  | cons hd tl ih =>
    obtain ⟨ka, va⟩ := hd
    by_cases h : ka = k
    · subst h
      rw [dinsert_cons_self]
      simp [dlookup]
    · rw [dinsert_cons_ne _ _ _ _ _ h]
      simp [dlookup, h, ih]

theorem dlookup_dinsert_ne (m : List (κ × ν)) (k ka : κ) (v : ν)
    (h : ka ≠ k) : dlookup (dinsert m k v) ka = dlookup m ka := by
  have hk : ¬ (k = ka) := fun hh => h hh.symm
  induction m with
  | nil => simp [dinsert, dlookup, hk]
  | cons hd tl ih =>
    obtain ⟨kb, vb⟩ := hd
    by_cases hb : kb = k
    · subst hb
      rw [dinsert_cons_self]
      simp [dlookup, hk]
    · rw [dinsert_cons_ne _ _ _ _ _ hb]
      by_cases hba : kb = ka <;> simp [dlookup, hba, ih]

theorem mem_dkeys_dinsert (m : List (κ × ν)) (k a : κ) (v : ν) :
    a ∈ dkeys (dinsert m k v) ↔ a ∈ dkeys m ∨ a = k := by
  induction m with
  | nil => simp [dinsert]
  | cons hd tl ih =>
    obtain ⟨kb, vb⟩ := hd
    by_cases hb : kb = k
    · subst hb
      rw [dinsert_cons_self]
      simp only [dkeys_cons, List.mem_cons]
      tauto
    · rw [dinsert_cons_ne _ _ _ _ _ hb]
      simp only [dkeys_cons, List.mem_cons, ih]
      tauto

theorem nodup_dkeys_dinsert (m : List (κ × ν)) (k : κ) (v : ν)
    (h : (dkeys m).Nodup) : (dkeys (dinsert m k v)).Nodup := by
  induction m with
  | nil => simp [dinsert]
  | cons hd tl ih =>
    obtain ⟨kb, vb⟩ := hd
    simp only [dkeys_cons, List.nodup_cons] at h
    by_cases hb : kb = k
    · subst hb
      rw [dinsert_cons_self]
      simp only [dkeys_cons, List.nodup_cons]
      exact h
    · rw [dinsert_cons_ne _ _ _ _ _ hb]
      simp only [dkeys_cons, List.nodup_cons]
      refine ⟨?_, ih h.2⟩
      rw [mem_dkeys_dinsert]
      rintro (hh | hh)
      · exact h.1 hh
      · exact hb hh

end Dict

/-- Context describing the attributes of the part-enum members that the
formatters read: `displayName` is `part.value.name`, `isTool` is the
`isinstance(part, Tool)` test, `partType` is the optional
`part.part_type.name`.  Part-enum members are identified by their enum
name, which is unique per member in a Python `Enum`. -/
structure PartCtx where
  displayName : String → String
  isTool : String → Bool
  partType : String → Option String

/-- Comparison key used by the formatters: `key=lambda p: str(p.value.name)`,
ascending. -/
def partNameLE (ctx : PartCtx) (a b : String) : Bool :=
  decide (ctx.displayName a ≤ ctx.displayName b)

/-- One step of the inner dependency walk of
`model_helpers.get_all_parts_for_model`: append the dependency to the
output and mark it processed unless it was already processed.  The state
is (output list, processed set). -/
def visitPart (st : List String × List String) (p : String) :
    List String × List String :=
  if p ∈ st.2 then st else (st.1 ++ [p], p :: st.2)

/-- One step of the outer loop of `model_helpers.get_all_parts_for_model`:
skip an already-processed explicit part, otherwise append it, mark it, and
walk its declared dependency list. -/
def resolveStep (allPartsOf : String → List String)
    (st : List String × List String) (p : String) :
    List String × List String :=
  if p ∈ st.2 then st
  else (allPartsOf p).foldl visitPart (st.1 ++ [p], p :: st.2)

/-- Model of `model_helpers.get_all_parts_for_model` (lines 28-52):
deduplicated-by-identity expansion of an explicit part list, where
`allPartsOf p` is the flat list returned by `p.value.all_parts()`. -/
def getAllPartsForModel (allPartsOf : String → List String)
    (explicit : List String) : List String :=
  (explicit.foldl (resolveStep allPartsOf) ([], [])).1

/-- Invariant of the resolver state: the output list is duplicate-free and
holds the same identifiers as the processed set. -/
def ResolveInv (st : List String × List String) : Prop :=
  st.1.Nodup ∧ ∀ x, x ∈ st.1 ↔ x ∈ st.2

theorem resolveInv_visitPart (st : List String × List String) (p : String)
    (h : ResolveInv st) : ResolveInv (visitPart st p) := by
  obtain ⟨hnd, hiff⟩ := h
  unfold visitPart
  by_cases hp : p ∈ st.2
  · simpa [hp] using ⟨hnd, hiff⟩
  · have hp1 : p ∉ st.1 := fun hx => hp ((hiff p).mp hx)
    refine ⟨?_, ?_⟩
    · simp only [if_neg hp]
      simp [List.nodup_append, hnd, List.disjoint_singleton, hp1]
    · intro x
      simp only [if_neg hp, List.mem_append, List.mem_singleton,
        List.mem_cons]
      rw [hiff x]
      tauto

theorem resolveInv_foldl_visit (l : List String)
    (st : List String × List String) (h : ResolveInv st) :
    ResolveInv (l.foldl visitPart st) := by
  induction l generalizing st with
  | nil => simpa using h
  | cons hd tl ih => exact ih _ (resolveInv_visitPart st hd h)

theorem resolveInv_resolveStep (allPartsOf : String → List String)
    (st : List String × List String) (p : String) (h : ResolveInv st) :
    ResolveInv (resolveStep allPartsOf st p) := by
  unfold resolveStep
  by_cases hp : p ∈ st.2
  · simpa [hp] using h
  · simp only [if_neg hp]
    refine resolveInv_foldl_visit _ _ ?_
    obtain ⟨hnd, hiff⟩ := h
    have hp1 : p ∉ st.1 := fun hx => hp ((hiff p).mp hx)
    refine ⟨?_, ?_⟩
    · simp [List.nodup_append, hnd, List.disjoint_singleton, hp1]
    · intro x
      simp only [List.mem_append, List.mem_singleton, List.mem_cons]
      rw [hiff x]
      tauto

theorem resolveInv_foldl_resolveStep (allPartsOf : String → List String)
    (l : List String) (st : List String × List String) (h : ResolveInv st) :
    ResolveInv (l.foldl (resolveStep allPartsOf) st) := by
  induction l generalizing st with
  | nil => simpa using h
  | cons hd tl ih => exact ih _ (resolveInv_resolveStep allPartsOf st hd h)

theorem nodup_getAllPartsForModel (allPartsOf : String → List String)
    (explicit : List String) :
    (getAllPartsForModel allPartsOf explicit).Nodup := by
  have h0 : ResolveInv (([], []) : List String × List String) := by
    constructor
    · exact List.nodup_nil
    · intro x; simp
  exact (resolveInv_foldl_resolveStep allPartsOf explicit ([], []) h0).1

/-- Output entry of `_format_detailed_parts` / `format_items_to_dicts`:
the dict with keys "count", "name", "type", "enum_name". -/
structure PartEntry where
  count : Nat
  name : String
  ptype : Option String
  enumName : String
deriving DecidableEq

/-- Output entry of `_format_tools_required`: the dict with keys "count",
"name", "enum_name". -/
structure ToolEntry where
  count : Nat
  name : String
  enumName : String
deriving DecidableEq

/-- The non-tool members of the flat expanded part list:
`[part for part in all_parts if not isinstance(part, Tool)]`. -/
def partsListOf (ctx : PartCtx) (allParts : List String) : List String :=
  allParts.filter (fun p => ! ctx.isTool p)

/-- The tool members of the flat expanded part list:
`[part for part in all_parts if isinstance(part, Tool)]`. -/
def toolsListOf (ctx : PartCtx) (allParts : List String) : List String :=
  allParts.filter (fun p => ctx.isTool p)

/-- Model of `create_cars_json.MetadataExtractor._format_detailed_parts`
(lines 208-219): iterate `sorted(set(parts_list), key=...)` (a Python set
iterates in unspecified order, so it is modelled as `dedup` followed by the
stable sort by display name used in the source) and emit one entry per
distinct member with `count = parts_list.count(part)`. -/
def formatDetailedParts (ctx : PartCtx) (partsList : List String) :
    List PartEntry :=
  ((partsList.dedup).mergeSort (partNameLE ctx)).map fun p =>
    { count := partsList.count p
      name := ctx.displayName p
      ptype := ctx.partType p
      enumName := p }

/-- Model of `create_cars_json.MetadataExtractor._format_tools_required`
(lines 221-230), analogous to `_format_detailed_parts`. -/
def formatToolsRequired (ctx : PartCtx) (toolsList : List String) :
    List ToolEntry :=
  ((toolsList.dedup).mergeSort (partNameLE ctx)).map fun t =>
    { count := toolsList.count t
      name := ctx.displayName t
      enumName := t }

/-- One step of the counting loop of `get_metadata.format_items_to_dicts`:
`item_counts[item] = item_counts.get(item, 0) + 1`. -/
def countStep (m : List (String × Nat)) (i : String) : List (String × Nat) :=
  dinsert m i ((dlookup m i).getD 0 + 1)

/-- The occurrence-count dict of `get_metadata.format_items_to_dicts`
(lines 38-41). -/
def itemCounts (items : List String) : List (String × Nat) :=
  items.foldl countStep []

/-- Model of `get_metadata.format_items_to_dicts` (lines 33-49): an empty
input yields `[]`; otherwise iterate the distinct items sorted by display
name and emit one entry per distinct item with its occurrence count. -/
def formatItemsToDicts (ctx : PartCtx) (items : List String) :
    List PartEntry :=
  if items = [] then []
  else
    ((dkeys (itemCounts items)).mergeSort (partNameLE ctx)).map fun i =>
      { count := (dlookup (itemCounts items) i).getD 0
        name := ctx.displayName i
        ptype := ctx.partType i
        enumName := i }

theorem dlookup_foldl_countStep (l : List String)
    (m : List (String × Nat)) (i : String) :
    (dlookup (l.foldl countStep m) i).getD 0
      = (dlookup m i).getD 0 + l.count i := by
  induction l generalizing m with
  | nil => simp
  | cons x l ih =>
    rw [List.foldl_cons, ih]
    by_cases hx : x = i
    · subst hx
      rw [show countStep m x = dinsert m x ((dlookup m x).getD 0 + 1)
            from rfl]
      rw [dlookup_dinsert_self]
      simp [List.count_cons]
      omega
    · rw [show countStep m x = dinsert m x ((dlookup m x).getD 0 + 1)
            from rfl]
      have hne : i ≠ x := fun hh => hx hh.symm
      rw [dlookup_dinsert_ne _ _ _ _ hne]
      simp [List.count_cons, beq_false_of_ne hne, hx]

theorem dlookup_itemCounts (items : List String) (i : String) :
    (dlookup (itemCounts items) i).getD 0 = items.count i := by
  rw [itemCounts, dlookup_foldl_countStep]
  simp [dlookup]

theorem mem_dkeys_foldl_countStep (l : List String)
    (m : List (String × Nat)) (a : String) :
    a ∈ dkeys (l.foldl countStep m) ↔ a ∈ dkeys m ∨ a ∈ l := by
  induction l generalizing m with
  | nil => simp
  | cons x l ih =>
    rw [List.foldl_cons, ih]
    rw [show countStep m x = dinsert m x ((dlookup m x).getD 0 + 1)
          from rfl]
    rw [mem_dkeys_dinsert]
    simp only [List.mem_cons]
    tauto

theorem mem_dkeys_itemCounts (items : List String) (a : String) :
    a ∈ dkeys (itemCounts items) ↔ a ∈ items := by
  rw [itemCounts, mem_dkeys_foldl_countStep]
  simp

theorem nodup_dkeys_foldl_countStep (l : List String)
    (m : List (String × Nat)) (h : (dkeys m).Nodup) :
    (dkeys (l.foldl countStep m)).Nodup := by
  induction l generalizing m with
  | nil => simpa using h
  | cons x l ih =>
    rw [List.foldl_cons]
    exact ih _ (nodup_dkeys_dinsert _ _ _ h)

theorem nodup_dkeys_itemCounts (items : List String) :
    (dkeys (itemCounts items)).Nodup :=
  nodup_dkeys_foldl_countStep items [] (by simp)

theorem map_enumName_formatDetailedParts (ctx : PartCtx) (l : List String) :
    (formatDetailedParts ctx l).map PartEntry.enumName
      = (l.dedup).mergeSort (partNameLE ctx) := by
  rw [formatDetailedParts, List.map_map]
  exact List.map_id _

theorem map_enumName_formatToolsRequired (ctx : PartCtx) (l : List String) :
    (formatToolsRequired ctx l).map ToolEntry.enumName
      = (l.dedup).mergeSort (partNameLE ctx) := by
  rw [formatToolsRequired, List.map_map]
  exact List.map_id _

/-- Claim C1: the resolved parts list and the resolved tools list contain
at most one entry per distinct part identifier: the dependency expansion
`get_all_parts_for_model` never emits a part twice, and the formatted
detailed-parts / tools lists of both generator scripts have pairwise
distinct enum names. -/
theorem c1_no_duplicate_identities (ctx : PartCtx)
    (allPartsOf : String → List String)
    (explicit allParts items : List String) :
    (getAllPartsForModel allPartsOf explicit).Nodup
    ∧ ((formatDetailedParts ctx (partsListOf ctx allParts)).map
        PartEntry.enumName).Nodup
    ∧ ((formatToolsRequired ctx (toolsListOf ctx allParts)).map
        ToolEntry.enumName).Nodup
    ∧ ((formatItemsToDicts ctx items).map PartEntry.enumName).Nodup := by
  refine ⟨nodup_getAllPartsForModel allPartsOf explicit, ?_, ?_, ?_⟩
  · rw [map_enumName_formatDetailedParts]
    exact (List.mergeSort_perm _ _).nodup_iff.mpr (List.nodup_dedup _)
  · rw [map_enumName_formatToolsRequired]
    exact (List.mergeSort_perm _ _).nodup_iff.mpr (List.nodup_dedup _)
  · by_cases h : items = []
    · simp [formatItemsToDicts, h]
    · rw [formatItemsToDicts, if_neg h, List.map_map]
      rw [show (PartEntry.enumName ∘ fun i =>
            ({ count := (dlookup (itemCounts items) i).getD 0
               name := ctx.displayName i
               ptype := ctx.partType i
               enumName := i } : PartEntry)) = id from rfl, List.map_id]
      exact (List.mergeSort_perm _ _).nodup_iff.mpr
        (nodup_dkeys_itemCounts items)

/-- Claim C2: the count annotation on each resolved part / tool entry is
the number of occurrences of that identifier in the flat, pre-deduplication
expanded list: `_format_detailed_parts` and `_format_tools_required` count
occurrences in the flat list (filtering by tool-ness does not change the
count of an identifier on its own side of the partition), and
`format_items_to_dicts` counts occurrences of each item in its input. -/
theorem c2_pre_dedup_counts (ctx : PartCtx) (allParts items : List String)
    (p t i : String) :
    (p ∈ partsListOf ctx allParts →
      ∃ e ∈ formatDetailedParts ctx (partsListOf ctx allParts),
        e.enumName = p ∧ e.count = allParts.count p)
    ∧ (t ∈ toolsListOf ctx allParts →
      ∃ e ∈ formatToolsRequired ctx (toolsListOf ctx allParts),
        e.enumName = t ∧ e.count = allParts.count t)
    ∧ (i ∈ items →
      ∃ e ∈ formatItemsToDicts ctx items,
        e.enumName = i ∧ e.count = items.count i) := by
  refine ⟨fun hp => ?_, fun ht => ?_, fun hi => ?_⟩
  · refine ⟨_, List.mem_map_of_mem _
      (List.mem_mergeSort.mpr (List.mem_dedup.mpr hp)), rfl, ?_⟩
    have hattr : (fun x => ! ctx.isTool x) p := (List.mem_filter.mp hp).2
    exact List.count_filter hattr
  · refine ⟨_, List.mem_map_of_mem _
      (List.mem_mergeSort.mpr (List.mem_dedup.mpr ht)), rfl, ?_⟩
    have hattr : (fun x => ctx.isTool x) t := (List.mem_filter.mp ht).2
    exact List.count_filter hattr
  · have hne : items ≠ [] := List.ne_nil_of_mem hi
    rw [formatItemsToDicts, if_neg hne]
    refine ⟨_, List.mem_map_of_mem _
      (List.mem_mergeSort.mpr ((mem_dkeys_itemCounts items i).mpr hi)),
      rfl, ?_⟩
    exact dlookup_itemCounts items i

/-- Witness for claim C2 at a concrete flat part list: the identifier "a"
occurs twice among the non-tools and gets count 2; the tool "tool1" occurs
once and gets count 1; for the second script, "x" occurs twice. -/
theorem c2_pre_dedup_counts_witness :
    (("a" : String) ∈ partsListOf
        ⟨id, fun p => p == "tool1", fun _ => none⟩
        ["a", "b", "a", "tool1"]
      ∧ ∃ e ∈ formatDetailedParts
          ⟨id, fun p => p == "tool1", fun _ => none⟩
          (partsListOf ⟨id, fun p => p == "tool1", fun _ => none⟩
            ["a", "b", "a", "tool1"]),
          e.enumName = "a" ∧ e.count = (["a", "b", "a", "tool1"]).count "a")
    ∧ (("x" : String) ∈ ["x", "y", "x"]
      ∧ ∃ e ∈ formatItemsToDicts
          ⟨id, fun p => p == "tool1", fun _ => none⟩ ["x", "y", "x"],
          e.enumName = "x" ∧ e.count = (["x", "y", "x"]).count "x") :=
  ⟨⟨by decide,
    (c2_pre_dedup_counts ⟨id, fun p => p == "tool1", fun _ => none⟩
      ["a", "b", "a", "tool1"] ["x", "y", "x"] "a" "tool1" "x").1
      (by decide)⟩,
   ⟨by decide,
    (c2_pre_dedup_counts ⟨id, fun p => p == "tool1", fun _ => none⟩
      ["a", "b", "a", "tool1"] ["x", "y", "x"] "a" "tool1" "x").2.2
      (by decide)⟩⟩

/-- Model of `constants.COLUMNS`: the documentation-table column dict. -/
def COLUMNS : List (String × String) :=
  [("MAKE", "Make"), ("MODEL", "Model"), ("PACKAGE", "Supported Package"),
   ("LONGITUDINAL", "ACC"), ("FSR_LONGITUDINAL", "No ACC accel below"),
   ("FSR_STEERING", "No ALC below"), ("STEERING_TORQUE", "Steering Torque"),
   ("AUTO_RESUME", "Resume from stop"), ("HARDWARE", "Hardware Needed"),
   ("VIDEO", "Video")]

/-- Model of the `footnotes.Footnote` dataclass content. -/
structure FootnoteM where
  text : String
  columns : List String
deriving DecidableEq

/-- Model of `Footnote.__init__` together with `Footnote.__post_init__`
(footnotes.py lines 19-23): construction fails with a ValueError on the
first column name that is not a key of `COLUMNS`. -/
def mkFootnote (text : String) (columns : List String) :
    Except String FootnoteM :=
  match columns.find? (fun c => ! (dlookup COLUMNS c).isSome) with
  | some c => Except.error ("Invalid column name: " ++ c)
  | none => Except.ok ⟨text, columns⟩

/-- Discriminator for `Except`: did the computation succeed. -/
def exceptIsOk {ε α : Type} (e : Except ε α) : Bool :=
  match e with
  | Except.ok _ => true
  | Except.error _ => false

theorem mkFootnote_ok_of_valid (text : String) (columns : List String)
    (h : ∀ c ∈ columns, (dlookup COLUMNS c).isSome) :
    mkFootnote text columns = Except.ok ⟨text, columns⟩ := by
  rw [mkFootnote]
  have : columns.find? (fun c => ! (dlookup COLUMNS c).isSome) = none := by
    rw [List.find?_eq_none]
    intro c hc
    simp [h c hc]
  rw [this]

/-- Claim C10: a successfully constructed footnote annotates only known
documentation-table columns: construction fails whenever the column list
contains a name that is not a key of `COLUMNS`, and every footnote that
construction returns has all its columns among the `COLUMNS` keys. -/
theorem c10_footnote_columns_valid (text : String) (columns : List String) :
    ((∃ c ∈ columns, dlookup COLUMNS c = none) →
      exceptIsOk (mkFootnote text columns) = false)
    ∧ (∀ fn, mkFootnote text columns = Except.ok fn →
        (fn.columns.all fun c => (dlookup COLUMNS c).isSome) = true) := by
  constructor
  · rintro ⟨c, hc, hnone⟩
    rw [mkFootnote]
    rcases hfind : columns.find? (fun c => ! (dlookup COLUMNS c).isSome)
        with _ | d
    · rw [List.find?_eq_none] at hfind
      have := hfind c hc
      simp [hnone] at this
    · simp [exceptIsOk]
  · intro fn hok
    rw [mkFootnote] at hok
    rcases hfind : columns.find? (fun c => ! (dlookup COLUMNS c).isSome)
        with _ | d
    · rw [hfind] at hok
      cases hok
      rw [List.find?_eq_none] at hfind
      rw [List.all_eq_true]
      intro c hc
      have := hfind c hc
      rw [Option.isSome_iff_ne_none]
      simpa using this
    · rw [hfind] at hok
      cases hok

/-- Witness for claim C10: a bogus column is rejected; a valid construction
("PACKAGE") yields a footnote whose columns all lie in `COLUMNS`. -/
theorem c10_footnote_columns_valid_witness :
    exceptIsOk (mkFootnote "t" ["BOGUS"]) = false
    ∧ ((["PACKAGE"] : List String).all
        fun c => (dlookup COLUMNS c).isSome) = true :=
  ⟨(c10_footnote_columns_valid "t" ["BOGUS"]).1
      ⟨"BOGUS", by decide, by decide⟩,
   (c10_footnote_columns_valid "Requires SCC" ["PACKAGE"]).2
      ⟨"Requires SCC", ["PACKAGE"]⟩ (by rfl)⟩

/-- Model of the `flag_processor.FlagConfig` dataclass (lines 15-22). -/
structure FlagConfig where
  flagName : String
  footnoteKey : String
  footnoteText : String
  footnoteColumn : String
  partRequired : Option String
deriving DecidableEq

/-- Model of `FlagBasedProcessor._initialize_flag_configs` (lines 39-44):
the dict from flag value (`getattr(self.FLAGS, config.flag_name)`,
supplied here as `flagVal`) to its configuration, in declaration order. -/
def buildFlagConfigs (flagVal : String → Nat) (configs : List FlagConfig) :
    List (Nat × FlagConfig) :=
  configs.foldl (fun m c => dinsert m (flagVal c.flagName) c) []

/-- One iteration of `FlagBasedProcessor._get_model_footnotes` (lines
54-59): when the platform flag bitset overlaps the rule's flag value, the
rule's footnote is constructed (running the column validation of
`Footnote.__post_init__`) and stored under the rule's footnote key. -/
def footStep (flags : Nat) (st : Except String (List (String × FootnoteM)))
    (entry : Nat × FlagConfig) : Except String (List (String × FootnoteM)) :=
  match st with
  | Except.error e => Except.error e
  | Except.ok fns =>
    if flags &&& entry.1 ≠ 0 then
      match mkFootnote entry.2.footnoteText [entry.2.footnoteColumn] with
      | Except.error e => Except.error e
      | Except.ok fn => Except.ok (dinsert fns entry.2.footnoteKey fn)
    else Except.ok fns

/-- Model of `FlagBasedProcessor._get_model_footnotes` (lines 46-61): the
footnote dict derived from the platform flag bitset.  (The source wraps a
non-empty dict in a `FootnoteCollection` and returns `None` for an empty
one; the claims are about the dict content.)  Note the processing derives
footnotes only: no part of the source consumes `FlagConfig.part_required`. -/
def getModelFootnotes (flags : Nat) (fcs : List (Nat × FlagConfig)) :
    Except String (List (String × FootnoteM)) :=
  fcs.foldl (footStep flags) (Except.ok [])

/-- Variant of `footStep` on the success path only. -/
def footStepOk (flags : Nat) (fns : List (String × FootnoteM))
    (entry : Nat × FlagConfig) : List (String × FootnoteM) :=
  if flags &&& entry.1 ≠ 0 then
    dinsert fns entry.2.footnoteKey
      ⟨entry.2.footnoteText, [entry.2.footnoteColumn]⟩
  else fns

theorem footfold_ok (flags : Nat) (L : List (Nat × FlagConfig))
    (st : List (String × FootnoteM))
    (h : ∀ e ∈ L, (dlookup COLUMNS e.2.footnoteColumn).isSome) :
    L.foldl (footStep flags) (Except.ok st)
      = Except.ok (L.foldl (footStepOk flags) st) := by
  induction L generalizing st with
  | nil => rfl
  | cons e L ih =>
    rw [List.foldl_cons, List.foldl_cons]
    have hcol : ∀ c ∈ [e.2.footnoteColumn], (dlookup COLUMNS c).isSome := by
      intro c hc
      rw [List.mem_singleton] at hc
      subst hc
      exact h e (List.mem_cons_self e L)
    have hrest : ∀ x ∈ L, (dlookup COLUMNS x.2.footnoteColumn).isSome :=
      fun x hx => h x (List.mem_cons_of_mem e hx)
    by_cases hfire : flags &&& e.1 ≠ 0
    · rw [show footStep flags (Except.ok st) e
            = Except.ok (footStepOk flags st e) by
          simp [footStep, footStepOk, hfire,
            mkFootnote_ok_of_valid _ _ hcol]]
      exact ih _ hrest
    · rw [show footStep flags (Except.ok st) e
            = Except.ok (footStepOk flags st e) by
          simp [footStep, footStepOk, hfire]]
      exact ih _ hrest

theorem dlookup_footfold_no_key (flags : Nat) (L : List (Nat × FlagConfig))
    (st : List (String × FootnoteM)) (k : String)
    (h : ∀ e ∈ L, e.2.footnoteKey ≠ k) :
    dlookup (L.foldl (footStepOk flags) st) k = dlookup st k := by
  induction L generalizing st with
  | nil => rfl
  | cons e L ih =>
    rw [List.foldl_cons]
    rw [ih _ (fun x hx => h x (List.mem_cons_of_mem e hx))]
    rw [footStepOk]
    by_cases hfire : flags &&& e.1 ≠ 0
    · rw [if_pos hfire]
      exact dlookup_dinsert_ne _ _ _ _
        (fun hh => h e (List.mem_cons_self e L) (hh ▸ rfl))
    · rw [if_neg hfire]

theorem dlookup_footfold_key (flags : Nat) (L : List (Nat × FlagConfig))
    (st : List (String × FootnoteM)) (k : String) (cfg : Nat × FlagConfig)
    (hmem : cfg ∈ L) (hk : cfg.2.footnoteKey = k)
    (hnd : (L.map (fun e => e.2.footnoteKey)).Nodup) :
    dlookup (L.foldl (footStepOk flags) st) k
      = if flags &&& cfg.1 ≠ 0 then
          some ⟨cfg.2.footnoteText, [cfg.2.footnoteColumn]⟩
        else dlookup st k := by
  induction L generalizing st with
  | nil => cases hmem
  | cons e L ih =>
    rw [List.map_cons, List.nodup_cons] at hnd
    rw [List.foldl_cons]
    rcases List.mem_cons.mp hmem with heq | htail
    · subst heq
      have hnokey : ∀ x ∈ L, x.2.footnoteKey ≠ k := by
        intro x hx hxk
        exact hnd.1 (hk ▸ hxk ▸ List.mem_map_of_mem _ hx)
      rw [dlookup_footfold_no_key flags L _ k hnokey]
      rw [footStepOk]
      by_cases hfire : flags &&& cfg.1 ≠ 0
      · rw [if_pos hfire, if_pos hfire, hk, dlookup_dinsert_self]
      · rw [if_neg hfire, if_neg hfire]
    · have hek : e.2.footnoteKey ≠ k := by
        intro hh
        exact hnd.1 (hh ▸ hk ▸ List.mem_map_of_mem _ htail)
      rw [ih _ htail hnd.2]
      by_cases hfire : flags &&& cfg.1 ≠ 0
      · rw [if_pos hfire, if_pos hfire]
      · rw [if_neg hfire, if_neg hfire]
        rw [footStepOk]
        by_cases hfire2 : flags &&& e.1 ≠ 0
        · rw [if_pos hfire2]
          exact dlookup_dinsert_ne _ _ _ _ (fun hh => hek (hh ▸ rfl))
        · rw [if_neg hfire2]

theorem dinsert_of_not_mem_dkeys {κ ν : Type} [DecidableEq κ]
    (m : List (κ × ν)) (k : κ) (v : ν) (h : k ∉ dkeys m) :
    dinsert m k v = m ++ [(k, v)] := by
  induction m with
  | nil => rfl
  | cons hd tl ih =>
    obtain ⟨ka, va⟩ := hd
    rw [dkeys_cons, List.mem_cons] at h
    push_neg at h
    rw [dinsert_cons_ne _ _ _ _ _ (fun hh => h.1 hh.symm)]
    rw [List.cons_append, ih h.2]

theorem buildFlagConfigs_eq_map_aux (flagVal : String → Nat)
    (configs : List FlagConfig) (m : List (Nat × FlagConfig))
    (hdisj : ∀ c ∈ configs, flagVal c.flagName ∉ dkeys m)
    (hnd : (configs.map (fun c => flagVal c.flagName)).Nodup) :
    configs.foldl (fun m c => dinsert m (flagVal c.flagName) c) m
      = m ++ configs.map (fun c => (flagVal c.flagName, c)) := by
  induction configs generalizing m with
  | nil => simp
  | cons c cs ih =>
    rw [List.map_cons, List.nodup_cons] at hnd
    rw [List.foldl_cons]
    rw [dinsert_of_not_mem_dkeys _ _ _ (hdisj c (List.mem_cons_self c cs))]
    rw [ih _ ?_ hnd.2]
    · simp
    · intro x hx
      have hx1 : flagVal x.flagName ∉ dkeys m :=
        hdisj x (List.mem_cons_of_mem c hx)
      have hx2 : flagVal x.flagName ≠ flagVal c.flagName := by
        intro hh
        exact hnd.1 (hh ▸ List.mem_map_of_mem _ hx)
      simp only [dkeys, List.map_append, List.mem_append]
      rintro (hmem | hmem)
      · exact hx1 hmem
      · simp at hmem
        exact hx2 hmem

theorem buildFlagConfigs_eq_map (flagVal : String → Nat)
    (configs : List FlagConfig)
    (hnd : (configs.map (fun c => flagVal c.flagName)).Nodup) :
    buildFlagConfigs flagVal configs
      = configs.map (fun c => (flagVal c.flagName, c)) := by
  rw [buildFlagConfigs, buildFlagConfigs_eq_map_aux flagVal configs []
    (by intro c hc; simp) hnd]
  rfl

/-- Model of `HyundaiProcessor.FLAG_CONFIGS` (hyundai/processor.py lines
24-44).  The CANFD footnote text comes from the external
`opendbc.car.hyundai.values` module and is supplied as a parameter. -/
def hyundaiFlagConfigs (canfdText : String) : List FlagConfig :=
  [⟨"MIN_STEER_32_MPH", "min_speed", "Minimum engage speed applies",
     "FSR_LONGITUDINAL", none⟩,
   ⟨"MANDO_RADAR", "radar_scc", "Uses radar-based Smart Cruise Control",
     "LONGITUDINAL", none⟩,
   ⟨"CANFD", "canfd", canfdText, "MODEL", some "canfd_kit"⟩]

/-- Model of `HyundaiProcessor._get_parts` (hyundai/processor.py lines
115-135): the parts stored per model, as (part ids, tool names).  The
harness is chosen purely from the model name and first year;
`FlagConfig.part_required` is not consulted, and no branch ever adds the
CANFD kit. -/
def hyundaiGetParts (model : String) (year : Int) :
    Option (List String × List String) :=
  if pyLower model = "elantra" then
    some
      ((if year ≥ 2021 then ["hyundai_k"]
        else if year = 2019 then ["hyundai_g"]
        else if year ≤ 2018 then ["hyundai_b"]
        else []),
       ["Trim Removal Tool"])
  else if pyLower model = "sonata" ∧ year ≥ 2020 then
    some (["hyundai_a"], ["Trim Removal Tool"])
  else none

/-- Claim C4, counterexample.  The CANFD rule of the Hyundai flag table
specifies `part_required="canfd_kit"`; with a bitset in which only that
rule's flag bit (here the value 4) is set, the derived footnote mapping
does contain the rule's footnote, yet no required part is added anywhere:
the parts computed for the CAN FD harness model (Elantra, first year 2021)
are just the harness and the common tool, without "canfd_kit" — the
`part_required` field is never consumed by the processing. -/
theorem c4_required_part_never_added :
    ((hyundaiFlagConfigs "canfd text").get? 2
      = some ⟨"CANFD", "canfd", "canfd text", "MODEL", some "canfd_kit"⟩)
    ∧ (4 &&& (4 : Nat) ≠ 0)
    ∧ getModelFootnotes 4
        (buildFlagConfigs
          (fun n => if n = "CANFD" then 4
                    else if n = "MANDO_RADAR" then 2 else 1)
          (hyundaiFlagConfigs "canfd text"))
        = Except.ok [("canfd", ⟨"canfd text", ["MODEL"]⟩)]
    ∧ hyundaiGetParts "Elantra" 2021
        = some (["hyundai_k"], ["Trim Removal Tool"])
    ∧ ("canfd_kit" : String) ∉ (["hyundai_k"] : List String)
    ∧ ("canfd_kit" : String) ∉ (["Trim Removal Tool"] : List String) := by
  refine ⟨rfl, by decide, ?_, ?_, by decide, by decide⟩
  · rfl
  · rfl

/-- Claim C4, amended.  For every flag bitset and every ordered flag-rule
table whose flag values and footnote keys are duplicate-free and whose
footnote columns are valid, the derived footnote mapping contains a rule's
footnote (under that rule's footnote key, with its configured text and
column) if and only if the rule's flag bit is set in the bitset; however,
flag rules contribute no parts: the processing derives footnotes only, the
`part_required` field is never consumed, and in particular the Hyundai
parts computation never includes the CANFD rule's required part for any
model or year. -/
theorem c4_flag_rule_engine_amended :
    (∀ (flags : Nat) (flagVal : String → Nat) (configs : List FlagConfig)
        (cfg : FlagConfig),
      (configs.map (fun c => flagVal c.flagName)).Nodup →
      (configs.map FlagConfig.footnoteKey).Nodup →
      (∀ c ∈ configs, (dlookup COLUMNS c.footnoteColumn).isSome) →
      cfg ∈ configs →
      ∃ fns, getModelFootnotes flags (buildFlagConfigs flagVal configs)
          = Except.ok fns
        ∧ (dlookup fns cfg.footnoteKey
            = some ⟨cfg.footnoteText, [cfg.footnoteColumn]⟩
          ↔ flags &&& flagVal cfg.flagName ≠ 0))
    ∧ (∀ (model : String) (year : Int) (pt : List String × List String),
        hyundaiGetParts model year = some pt →
        ("canfd_kit" : String) ∉ pt.1 ∧ ("canfd_kit" : String) ∉ pt.2) := by
  constructor
  · intro flags flagVal configs cfg hndv hndk hcols hmem
    rw [buildFlagConfigs_eq_map flagVal configs hndv]
    set L := configs.map (fun c => (flagVal c.flagName, c)) with hL
    have hcolsL : ∀ e ∈ L, (dlookup COLUMNS e.2.footnoteColumn).isSome := by
      intro e he
      rw [hL, List.mem_map] at he
      obtain ⟨c, hc, rfl⟩ := he
      exact hcols c hc
    refine ⟨L.foldl (footStepOk flags) [], ?_, ?_⟩
    · rw [getModelFootnotes, footfold_ok flags L [] hcolsL]
    · have hcfgL : (flagVal cfg.flagName, cfg) ∈ L :=
        hL ▸ List.mem_map_of_mem _ hmem
      have hndL : (L.map (fun e => e.2.footnoteKey)).Nodup := by
        rw [hL, List.map_map]
        exact hndk
      rw [dlookup_footfold_key flags L [] cfg.footnoteKey
        (flagVal cfg.flagName, cfg) hcfgL rfl hndL]
      by_cases hfire : flags &&& flagVal cfg.flagName ≠ 0
      · rw [if_pos hfire]
        simp [hfire]
      · rw [if_neg hfire]
        simp [dlookup, hfire]
  · intro model year pt hpt
    rw [hyundaiGetParts] at hpt
    by_cases h1 : pyLower model = "elantra"
    · rw [if_pos h1] at hpt
      cases hpt
      constructor
      · by_cases h2 : year ≥ 2021
        · simp [h2]
        · rw [if_neg h2]
          by_cases h3 : year = 2019
          · simp [h3]
          · rw [if_neg h3]
            by_cases h4 : year ≤ 2018
            · simp [h4]
            · simp [h4]
      · simp
    · rw [if_neg h1] at hpt
      by_cases h2 : pyLower model = "sonata" ∧ year ≥ 2020
      · rw [if_pos h2] at hpt
        cases hpt
        constructor <;> simp
      · rw [if_neg h2] at hpt
        cases hpt

/-- Witness for the amended claim C4 at the concrete Hyundai rule table:
the MANDO_RADAR rule (flag value 2) fires for the bitset 2, and the Sonata
2020 parts contain no CANFD kit. -/
theorem c4_flag_rule_engine_amended_witness :
    (((hyundaiFlagConfigs "canfd text").map
        (fun c => (fun n => if n = "CANFD" then (4 : Nat)
                            else if n = "MANDO_RADAR" then 2 else 1)
          c.flagName)).Nodup
      ∧ ((hyundaiFlagConfigs "canfd text").map FlagConfig.footnoteKey).Nodup
      ∧ (∀ c ∈ hyundaiFlagConfigs "canfd text",
          (dlookup COLUMNS c.footnoteColumn).isSome)
      ∧ (⟨"MANDO_RADAR", "radar_scc",
           "Uses radar-based Smart Cruise Control", "LONGITUDINAL", none⟩ :
            FlagConfig) ∈ hyundaiFlagConfigs "canfd text"
      ∧ ∃ fns, getModelFootnotes 2
            (buildFlagConfigs
              (fun n => if n = "CANFD" then 4
                        else if n = "MANDO_RADAR" then 2 else 1)
              (hyundaiFlagConfigs "canfd text"))
            = Except.ok fns
          ∧ (dlookup fns "radar_scc"
              = some ⟨"Uses radar-based Smart Cruise Control",
                  ["LONGITUDINAL"]⟩
            ↔ 2 &&& (fun n => if n = "CANFD" then (4 : Nat)
                              else if n = "MANDO_RADAR" then 2 else 1)
                "MANDO_RADAR" ≠ 0))
    ∧ (hyundaiGetParts "Sonata" 2020
        = some (["hyundai_a"], ["Trim Removal Tool"])
      ∧ ("canfd_kit" : String) ∉ (["hyundai_a"] : List String)
        ∧ ("canfd_kit" : String) ∉ (["Trim Removal Tool"] : List String)) :=
  ⟨⟨by decide, by decide, by decide, by decide,
    c4_flag_rule_engine_amended.1 2
      (fun n => if n = "CANFD" then 4
                else if n = "MANDO_RADAR" then 2 else 1)
      (hyundaiFlagConfigs "canfd text")
      ⟨"MANDO_RADAR", "radar_scc",
        "Uses radar-based Smart Cruise Control", "LONGITUDINAL", none⟩
      (by decide) (by decide) (by decide) (by decide)⟩,
   ⟨by rfl,
    c4_flag_rule_engine_amended.2 "Sonata" 2020
      (["hyundai_a"], ["Trim Removal Tool"]) (by rfl)⟩⟩

/-- Truthiness of an optional Python string: `not s` holds for `None` and
for the empty string. -/
def falsyS (s : Option String) : Bool :=
  match s with
  | none => true
  | some str => str == ""

/-- The fields of a documentation object consumed by the modelled part of
`create_cars_json.MetadataExtractor.extract_car_data`. -/
structure CarDoc where
  name : String
  carFingerprint : Option String
  make : Option String
  model : Option String
  minSteerSpeed : Option PFloat
deriving DecidableEq

/-- The claim-relevant fields of the output record built by
`extract_car_data` (the remaining extracted keys are plain attribute
copies that no validation, sorting or normalization claim touches). -/
structure CarRecord where
  name : String
  make : Option String
  model : Option String
  carFingerprint : Option String
  minSteerSpeed : Option PFloat
  maxLateralAccel : Option PFloat
  centerToFrontRatio : ℚ
  mass : Option ℚ
  wheelbase : Option ℚ
deriving DecidableEq

/-- The external registries consumed by the pipeline: platform lookup
(`PLATFORMS.get`) and parameter retrieval (`get_params_for_docs`). -/
structure Env where
  platformExists : String → Bool
  params : String → Option CarParamsM

/-- Model of `MetadataExtractor._validate_car_doc` (lines 65-76): a doc
with a falsy name or a missing/falsy fingerprint is rejected (with a
warning) before extraction. -/
def validateCarDoc (d : CarDoc) : Bool :=
  (d.name != "") && (! falsyS d.carFingerprint)

/-- Model of `MetadataExtractor.extract_car_data` (lines 100-128)
restricted to the claim-relevant fields: reject docs failing
`_validate_car_doc` or whose platform is unknown, then assemble the
record, applying the minimum-steer-speed and maximum-lateral-acceleration
normalizations and the ratio guard. -/
def extractCarData (env : Env) (d : CarDoc) : Option CarRecord :=
  if validateCarDoc d then
    match d.carFingerprint with
    | none => none
    | some fp =>
      if env.platformExists fp then
        let cp := env.params fp
        some
          { name := d.name
            make := d.make
            model := d.model
            carFingerprint := d.carFingerprint
            minSteerSpeed := minSteerSpeedNorm d.name d.minSteerSpeed
            maxLateralAccel :=
              normMaxLateralAccel (cp.bind CarParamsM.maxLateralAccel)
            centerToFrontRatio := centerToFrontRatio cp
            mass := cp.bind CarParamsM.mass
            wheelbase := cp.bind CarParamsM.wheelbase }
      else none
  else none

/-- True when the record misses one of the required identity fields
checked by `validate_output`: name, make, model, car_fingerprint. -/
def recordMissingRequired (c : CarRecord) : Bool :=
  (c.name == "") || falsyS c.make || falsyS c.model
    || falsyS c.carFingerprint

/-- Number of validation errors `MetadataExtractor.validate_output`
(lines 352-357) reports for one record: one per falsy required field. -/
def recordErrorCount (c : CarRecord) : Nat :=
  (if c.name == "" then 1 else 0) + (if falsyS c.make then 1 else 0)
    + (if falsyS c.model then 1 else 0)
    + (if falsyS c.carFingerprint then 1 else 0)

/-- Number of validation warnings `validate_output` (lines 359-372)
reports for one record: one for a present mass outside [500, 5000] kg and
one for a present wheelbase outside [1, 5] m. -/
def recordWarnCount (c : CarRecord) : Nat :=
  (match c.mass with
   | some m => if m < 500 ∨ 5000 < m then 1 else 0
   | none => 0)
  + (match c.wheelbase with
     | some w => if w < 1 ∨ 5 < w then 1 else 0
     | none => 0)

/-- Total error count of `validate_output` over the emitted records. -/
def validateOutputErrors (cars : List CarRecord) : Nat :=
  (cars.map recordErrorCount).sum

/-- Total warning count of `validate_output` over the emitted records. -/
def validateOutputWarnings (cars : List CarRecord) : Nat :=
  (cars.map recordWarnCount).sum

/-- The sort key of `generate_json` (lines 425-428):
`(car.get('make') or '', car.get('model') or '')`. -/
def recKey (c : CarRecord) : String × String :=
  (c.make.getD "", c.model.getD "")

/-- Ascending lexicographic comparison of Python string pairs, as used by
`sorted(..., key=...)`. -/
def keyLE (a b : String × String) : Bool :=
  decide (a.1 < b.1 ∨ (a.1 = b.1 ∧ a.2 ≤ b.2))

/-- Record comparison by sort key. -/
def recLE (a b : CarRecord) : Bool :=
  keyLE (recKey a) (recKey b)

/-- Model of the `sorted(cars_data, key=sort_by_make_then_model)` call:
Python sorted is a stable merge sort. -/
def sortCars (cars : List CarRecord) : List CarRecord :=
  cars.mergeSort recLE

/-- Model of `MetadataExtractor.generate_json` (lines 398-453) restricted
to the claim-relevant behavior: fail (no output written) when there are no
docs or no doc extracts successfully; otherwise write the sorted records
and, when validation is requested and reports errors, return failure with
the file already written.  The first component is the written file
content, the second the success flag returned to `main`. -/
def generateJson (env : Env) (docs : List CarDoc) (vflag : Bool) :
    Option (List CarRecord) × Bool :=
  if docs.length = 0 then (none, false)
  else
    let cars := docs.filterMap (extractCarData env)
    if cars = [] then (none, false)
    else
      let out := sortCars cars
      if vflag && ! (validateOutputErrors out == 0) then (some out, false)
      else (some out, true)

/-- Model of the exit status of `create_cars_json.main` (lines 484-485):
`sys.exit(0 if success else 1)`. -/
def mainExitCode (success : Bool) : Nat :=
  if success then 0 else 1

/-- Claim C8: a run that processes zero vehicle records successfully is a
hard failure: no output is emitted and the process exits non-zero. -/
theorem c8_zero_records_hard_failure (env : Env) (docs : List CarDoc)
    (vflag : Bool) (h : docs.filterMap (extractCarData env) = []) :
    (generateJson env docs vflag).1 = none
    ∧ mainExitCode (generateJson env docs vflag).2 = 1 := by
  rw [generateJson]
  by_cases hd : docs.length = 0
  · simp [hd, mainExitCode]
  · simp [hd, h, mainExitCode]

/-- Witness for claim C8: a run whose only doc has a falsy name extracts
nothing, emits nothing and exits with status 1. -/
theorem c8_zero_records_hard_failure_witness :
    ((([⟨"", some "F", some "Acme", some "M", none⟩] : List CarDoc)).filterMap
        (extractCarData ⟨fun _ => true, fun _ => none⟩) = []
      ∧ (generateJson ⟨fun _ => true, fun _ => none⟩
          [⟨"", some "F", some "Acme", some "M", none⟩] true).1 = none
      ∧ mainExitCode (generateJson ⟨fun _ => true, fun _ => none⟩
          [⟨"", some "F", some "Acme", some "M", none⟩] true).2 = 1) :=
  ⟨rfl, c8_zero_records_hard_failure ⟨fun _ => true, fun _ => none⟩
    [⟨"", some "F", some "Acme", some "M", none⟩] true rfl⟩

theorem keyLE_trans (a b c : String × String) (h1 : keyLE a b)
    (h2 : keyLE b c) : keyLE a c := by
  rw [keyLE, decide_eq_true_iff] at h1 h2 ⊢
  rcases h1 with h1 | ⟨e1, l1⟩ <;> rcases h2 with h2 | ⟨e2, l2⟩
  · exact Or.inl (lt_trans h1 h2)
  · exact Or.inl (lt_of_lt_of_eq h1 e2)
  · exact Or.inl (lt_of_eq_of_lt e1 h2)
  · exact Or.inr ⟨e1.trans e2, le_trans l1 l2⟩

theorem keyLE_total (a b : String × String) : keyLE a b || keyLE b a := by
  rw [keyLE, keyLE]
  rcases lt_trichotomy a.1 b.1 with h | h | h
  · simp [h]
  · rcases le_total a.2 b.2 with h2 | h2 <;> simp [h, h2]
  · simp [h]

theorem recLE_trans (a b c : CarRecord) (h1 : recLE a b) (h2 : recLE b c) :
    recLE a c :=
  keyLE_trans _ _ _ h1 h2

theorem recLE_total (a b : CarRecord) : recLE a b || recLE b a :=
  keyLE_total _ _

theorem pairwise_filter_of_all {α : Type} (p : α → Bool) (R : α → α → Prop)
    (l : List α) (h : ∀ a b, p a = true → p b = true → R a b) :
    (l.filter p).Pairwise R := by
  induction l with
  | nil => simp
  | cons x l ih =>
    rw [List.filter_cons]
    by_cases hx : p x = true
    · rw [if_pos hx]
      refine List.Pairwise.cons ?_ ih
      intro b hb
      exact h x b hx (List.mem_filter.mp hb).2
    · rw [if_neg hx]
      exact ih

/-- Claim C9: the emitted record array is sorted ascending by the
(make, model) key, is a permutation of the processed records, and the sort
is stable: for every key, the records carrying that key appear in the
output exactly in their input order. -/
theorem c9_sort_stable_by_make_model (cars : List CarRecord) :
    (sortCars cars).Pairwise (fun a b => recLE a b = true)
    ∧ List.Perm (sortCars cars) cars
    ∧ ∀ k : String × String,
        (sortCars cars).filter (fun c => recKey c = k)
          = cars.filter (fun c => recKey c = k) := by
  refine ⟨List.sorted_mergeSort recLE_trans recLE_total cars,
    List.mergeSort_perm cars recLE, fun k => ?_⟩
  set p : CarRecord → Bool := fun c => decide (recKey c = k) with hp
  have hpair : (cars.filter p).Pairwise (fun a b => recLE a b = true) := by
    refine pairwise_filter_of_all p _ cars ?_
    intro a b ha hb
    rw [hp] at ha hb
    simp only [decide_eq_true_iff] at ha hb
    rw [recLE, keyLE, ha, hb, decide_eq_true_iff]
    exact Or.inr ⟨rfl, le_refl _⟩
  have hsub : List.Sublist (cars.filter p) (sortCars cars) := by
    rw [sortCars]
    exact List.sublist_mergeSort recLE_trans recLE_total hpair
      (List.filter_sublist cars)
  have hsub2 : List.Sublist (cars.filter p) ((sortCars cars).filter p) := by
    have heq : (cars.filter p).filter p = cars.filter p := by
      rw [List.filter_filter]
      simp
    have := hsub.filter p
    rw [heq] at this
    exact this
  have hperm : List.Perm ((sortCars cars).filter p) (cars.filter p) := by
    rw [sortCars]
    exact (List.mergeSort_perm cars recLE).filter p
  exact (hsub2.eq_of_length hperm.length_eq.symm).symm

theorem recordErrorCount_eq_zero (c : CarRecord) :
    recordErrorCount c = 0 ↔ recordMissingRequired c = false := by
  rw [recordErrorCount, recordMissingRequired]
  by_cases h1 : c.name == "" <;> by_cases h2 : falsyS c.make <;>
    by_cases h3 : falsyS c.model <;> by_cases h4 : falsyS c.carFingerprint <;>
    simp [h1, h2, h3, h4]

theorem validateOutputErrors_eq_zero (cars : List CarRecord) :
    validateOutputErrors cars = 0
      ↔ ∀ c ∈ cars, recordMissingRequired c = false := by
  induction cars with
  | nil => simp [validateOutputErrors]
  | cons x l ih =>
    rw [validateOutputErrors, List.map_cons, List.sum_cons]
    rw [validateOutputErrors] at ih
    constructor
    · intro h c hc
      have hx : recordErrorCount x = 0 := by omega
      have hl : (l.map recordErrorCount).sum = 0 := by omega
      rcases List.mem_cons.mp hc with rfl | hc
      · exact (recordErrorCount_eq_zero c).mp hx
      · exact (ih.mp hl) c hc
    · intro h
      have hx := (recordErrorCount_eq_zero x).mpr
        (h x (List.mem_cons_self x l))
      have hl := ih.mpr (fun c hc => h c (List.mem_cons_of_mem x hc))
      omega

/-- Claim C7, counterexample.  A processed record whose make is missing is
reported by validation as an error (the run fails, exit non-zero), yet the
record is NOT excluded from the final output: the file is written before
validation runs, and it contains the record. -/
theorem c7_error_does_not_exclude_record :
    validateOutputErrors
        [⟨"X", none, some "M", some "F", none, none, 1 / 2, none, none⟩] = 1
    ∧ (generateJson ⟨fun _ => true, fun _ => none⟩
        [⟨"X", some "F", none, some "M", none⟩] true).2 = false
    ∧ (generateJson ⟨fun _ => true, fun _ => none⟩
        [⟨"X", some "F", none, some "M", none⟩] true).1
      = some [⟨"X", none, some "M", some "F", none, none, 1 / 2,
          none, none⟩] := by
  have hcars : List.filterMap
      (extractCarData ⟨fun _ => true, fun _ => none⟩)
      [⟨"X", some "F", none, some "M", none⟩]
      = [⟨"X", none, some "M", some "F", none, none, 1 / 2, none, none⟩] :=
    rfl
  have hsort : sortCars
      [⟨"X", none, some "M", some "F", none, none, 1 / 2, none, none⟩]
      = [⟨"X", none, some "M", some "F", none, none, 1 / 2, none, none⟩] := by
    simp [sortCars]
  have hval : validateOutputErrors
      [⟨"X", none, some "M", some "F", none, none, 1 / 2, none, none⟩]
      = 1 := rfl
  refine ⟨hval, ?_, ?_⟩
  · simp only [generateJson, hcars, hsort, hval]
    rfl
  · simp only [generateJson, hcars, hsort, hval]
    rfl

/-- Claim C7, amended.  Validation fails (and only fails) when some
emitted record misses a required identity field — each such field is
counted as an error; a present but out-of-range mass contributes a warning
but no error, so it never fails validation; and the written output always
contains every processed record, sorted, independent of the validation
outcome: a validation error fails the run but does not exclude the record
from the written file. -/
theorem c7_validation_errors_vs_warnings :
    (∀ cars : List CarRecord,
      validateOutputErrors cars = 0
        ↔ ∀ c ∈ cars, recordMissingRequired c = false)
    ∧ (∀ (c : CarRecord) (m : ℚ), c.mass = some m →
        (m < 500 ∨ 5000 < m) → 1 ≤ recordWarnCount c)
    ∧ (∀ (env : Env) (docs : List CarDoc) (vflag : Bool),
        docs ≠ [] → docs.filterMap (extractCarData env) ≠ [] →
        (generateJson env docs vflag).1
          = some (sortCars (docs.filterMap (extractCarData env)))) := by
  refine ⟨validateOutputErrors_eq_zero, ?_, ?_⟩
  · intro c m hm hrange
    rw [recordWarnCount, hm]
    show 1 ≤ (if m < 500 ∨ 5000 < m then 1 else 0) + _
    rw [if_pos hrange]
    exact Nat.le_add_right 1 _
  · intro env docs vflag hd hcars
    rw [generateJson]
    rw [if_neg (fun hh => hd (List.length_eq_zero.mp hh))]
    simp only
    rw [if_neg hcars]
    by_cases hv : (vflag && ! (validateOutputErrors
        (sortCars (docs.filterMap (extractCarData env))) == 0)) = true
    · rw [if_pos hv]
    · rw [if_neg hv]

/-- Witness for the amended claim C7: a record with mass 6000 kg draws a
warning; a run over one well-formed doc writes exactly that record. -/
theorem c7_validation_errors_vs_warnings_witness :
    ((⟨"X", some "Acme", some "M", some "F", none, none, 1 / 2,
        some 6000, none⟩ : CarRecord).mass = some 6000
      ∧ ((6000 : ℚ) < 500 ∨ (5000 : ℚ) < 6000)
      ∧ 1 ≤ recordWarnCount
          ⟨"X", some "Acme", some "M", some "F", none, none, 1 / 2,
            some 6000, none⟩)
    ∧ (([⟨"X", some "F", some "Acme", some "M", none⟩] : List CarDoc) ≠ []
      ∧ ([⟨"X", some "F", some "Acme", some "M", none⟩] : List CarDoc
          ).filterMap (extractCarData ⟨fun _ => true, fun _ => none⟩) ≠ []
      ∧ (generateJson ⟨fun _ => true, fun _ => none⟩
          [⟨"X", some "F", some "Acme", some "M", none⟩] true).1
        = some (sortCars (([⟨"X", some "F", some "Acme", some "M", none⟩] :
            List CarDoc).filterMap
              (extractCarData ⟨fun _ => true, fun _ => none⟩)))) :=
  ⟨⟨rfl, by norm_num,
    c7_validation_errors_vs_warnings.2.1
      ⟨"X", some "Acme", some "M", some "F", none, none, 1 / 2,
        some 6000, none⟩ 6000 rfl (by norm_num)⟩,
   ⟨by simp, by simp [extractCarData, validateCarDoc, falsyS],
    c7_validation_errors_vs_warnings.2.2 ⟨fun _ => true, fun _ => none⟩
      [⟨"X", some "F", some "Acme", some "M", none⟩] true (by simp)
      (by simp [extractCarData, validateCarDoc, falsyS])⟩⟩

end OpendbcMeta
